import Mathlib

/- Verification development for the fatiando potential-field prism code
   (src/fatiando/potential/_prism.py and src/fatiando/potential/prism.py)
   and for the seeded-growth inversion engine described by the system
   specification.  Numpy arrays are modelled as lists of real numbers,
   elementwise array operations as zipWith/map, and Python exceptions as an
   explicit error type threaded through an Except monad. -/

namespace Fatiando

/- Python exceptions that the modelled code can raise: the explicit
   ValueError of the shape guards, the AttributeError raised by attribute
   access on None or by a missing module attribute, and the KeyError raised
   by a dict lookup with a missing key. -/
inductive PyErr where
  | valueError
  | attributeError
  | keyError
  deriving DecidableEq

/- Property mapping of a prism.  The prism code only ever reads the
   density entry of the props dict, so the mapping is modelled by its
   optional density value (absent = key not present in the dict). -/
structure PrismProps where
  density : Option ℝ

/- A right rectangular prism (fatiando.mesher volume element): immutable
   spatial bounds x1,x2,y1,y2,z1,z2 and a property mapping. -/
structure Prism where
  x1 : ℝ
  x2 : ℝ
  y1 : ℝ
  y2 : ℝ
  z1 : ℝ
  z2 : ℝ
  props : PrismProps

/- numpy.zeros_like: an all-zeros array with the shape of the argument. -/
noncomputable def zerosLike (xs : List ℝ) : List ℝ := xs.map (fun _ => 0)

/- The list of observation points described by three coordinate arrays. -/
def zip3 (xp yp zp : List ℝ) : List (ℝ × ℝ × ℝ) := xp.zip (yp.zip zp)

namespace PrismCore

/- Constants of src/fatiando/potential/_prism.py, lines 10-12. -/
noncomputable def SI2EOTVOS : ℝ := 1000000000.0

noncomputable def SI2MGAL : ℝ := 100000.0

noncomputable def G : ℝ := 0.00000000006673

/- numpy.arctan2 on real numbers: the angle of the point (x, y), in
   (-pi, pi], with arctan2 0 0 = 0. -/
noncomputable def arctan2 (y x : ℝ) : ℝ :=
  if 0 < x then Real.arctan (y / x)
  else if x < 0 then
    (if 0 ≤ y then Real.arctan (y / x) + Real.pi else Real.arctan (y / x) - Real.pi)
  else (if 0 < y then Real.pi / 2 else if y < 0 then -(Real.pi / 2) else 0)

/- Kernel of the gravitational potential (pot, _prism.py lines 58-63),
   evaluated at one integration corner (x, y, z). -/
noncomputable def kernPot (x y z : ℝ) : ℝ :=
  let r := Real.sqrt (x * x + y * y + z * z);
  -x * y * Real.log (z + r) - y * z * Real.log (x + r) - x * z * Real.log (y + r)
    + 0.5 * x * x * arctan2 (z * y) (x * r)
    + 0.5 * y * y * arctan2 (z * x) (y * r)
    + 0.5 * z * z * arctan2 (x * y) (z * r)

/- Kernel of the gx component (_prism.py lines 113-115). -/
noncomputable def kernGx (x y z : ℝ) : ℝ :=
  let r := Real.sqrt (x * x + y * y + z * z);
  y * Real.log (z + r) + z * Real.log (y + r) - x * arctan2 (z * y) (x * r)

/- Kernel of the gy component (_prism.py lines 165-167). -/
noncomputable def kernGy (x y z : ℝ) : ℝ :=
  let r := Real.sqrt (x * x + y * y + z * z);
  z * Real.log (x + r) + x * Real.log (z + r) - y * arctan2 (x * z) (y * r)

/- Kernel of the gz component (_prism.py lines 217-219). -/
noncomputable def kernGz (x y z : ℝ) : ℝ :=
  let r := Real.sqrt (x * x + y * y + z * z);
  x * Real.log (y + r) + y * Real.log (x + r) - z * arctan2 (x * y) (z * r)

/- Kernels of the gravity gradient tensor components (_prism.py). -/
noncomputable def kernGxx (x y z : ℝ) : ℝ :=
  let r := Real.sqrt (x * x + y * y + z * z);
  -arctan2 (z * y) (x * r)

noncomputable def kernGxy (x y z : ℝ) : ℝ :=
  let r := Real.sqrt (x * x + y * y + z * z);
  Real.log (z + r)

noncomputable def kernGxz (x y z : ℝ) : ℝ :=
  let r := Real.sqrt (x * x + y * y + z * z);
  Real.log (y + r)

noncomputable def kernGyy (x y z : ℝ) : ℝ :=
  let r := Real.sqrt (x * x + y * y + z * z);
  -arctan2 (z * x) (y * r)

noncomputable def kernGyz (x y z : ℝ) : ℝ :=
  let r := Real.sqrt (x * x + y * y + z * z);
  Real.log (x + r)

noncomputable def kernGzz (x y z : ℝ) : ℝ :=
  let r := Real.sqrt (x * x + y * y + z * z);
  -arctan2 (x * y) (z * r)

/- One prism's triple loop over the integration limits, collapsed at a
   single observation point pt: the source shifts the prism bounds by the
   observation coordinates (x = [x1-xp, x2-xp] and so on) and accumulates
   ((-1)^(i+j+k)) * kernel over the eight corners; real addition makes the
   eight res updates equal to adding this signed eight-term sum once. -/
noncomputable def eightSum (kern : ℝ → ℝ → ℝ → ℝ) (p : Prism) (pt : ℝ × ℝ × ℝ) : ℝ :=
  let x0 := p.x1 - pt.1
  let x1 := p.x2 - pt.1
  let y0 := p.y1 - pt.2.1
  let y1 := p.y2 - pt.2.1
  let z0 := p.z1 - pt.2.2
  let z1 := p.z2 - pt.2.2
  kern x0 y0 z0 - kern x1 y0 z0 - kern x0 y1 z0 + kern x1 y1 z0
    - kern x0 y0 z1 + kern x1 y0 z1 + kern x0 y1 z1 - kern x1 y1 z1

/- The contribution of one prism with density d at one observation point:
   kernel sum times density (res += ((-1)^(i+j+k))*kernel*density). -/
noncomputable def prismEffect (kern : ℝ → ℝ → ℝ → ℝ) (d : ℝ) (p : Prism) (pt : ℝ × ℝ × ℝ) : ℝ :=
  d * eightSum kern p pt

/- The prism loop shared by every field function of _prism.py.  The guard
   `if prism is None and 'density' not in prism.props: continue` evaluates
   `prism.props` on None (AttributeError) when the prism is None, and falls
   through to `prism.props['density']` (KeyError) when the prism is not
   None but has no density; only a prism with a density contributes. -/
noncomputable def fieldLoop (kern : ℝ → ℝ → ℝ → ℝ) (pts : List (ℝ × ℝ × ℝ)) :
    List (Option Prism) → List ℝ → Except PyErr (List ℝ)
  | [], res => .ok res
  | none :: _, _ => .error .attributeError
  | some p :: rest, res =>
    match p.props.density with
    | none => .error .keyError
    | some d =>
      fieldLoop kern pts rest
        (List.zipWith (fun a b => a + b) res (pts.map (prismEffect kern d p)))

/- A field function of _prism.py: the chained shape guard
   `if xp.shape != yp.shape != zp.shape` (true only when BOTH comparisons
   hold), the prism loop starting from numpy.zeros_like(xp), and the final
   in-place multiplication of the result by the scale constant.
   Elementwise numpy operations are modelled by zipWith, which is exact
   for arrays of one common shape — the case every theorem about
   fieldComp restricts to; the behavior on mismatched lengths (numpy
   broadcasting and its ValueError) is modelled by fieldCompBC below. -/
noncomputable def fieldComp (kern : ℝ → ℝ → ℝ → ℝ) (scale : ℝ)
    (xp yp zp : List ℝ) (prisms : List (Option Prism)) : Except PyErr (List ℝ) :=
  if xp.length ≠ yp.length ∧ yp.length ≠ zp.length then .error .valueError
  else
    Except.map (fun res => res.map (fun v => v * scale))
      (fieldLoop kern (zip3 xp yp zp) prisms (zerosLike xp))

/- _prism.pot: res *= G*SI2MGAL. -/
noncomputable def pot : List ℝ → List ℝ → List ℝ → List (Option Prism) → Except PyErr (List ℝ) :=
  fieldComp kernPot (G * SI2MGAL)

/- _prism.gx: res *= G  (unlike gy and gz, no SI2MGAL factor). -/
noncomputable def gx : List ℝ → List ℝ → List ℝ → List (Option Prism) → Except PyErr (List ℝ) :=
  fieldComp kernGx G

/- _prism.gy: res *= G*SI2MGAL. -/
noncomputable def gy : List ℝ → List ℝ → List ℝ → List (Option Prism) → Except PyErr (List ℝ) :=
  fieldComp kernGy (G * SI2MGAL)

/- _prism.gz: res *= G*SI2MGAL. -/
noncomputable def gz : List ℝ → List ℝ → List ℝ → List (Option Prism) → Except PyErr (List ℝ) :=
  fieldComp kernGz (G * SI2MGAL)

/- The gradient tensor components, res *= G*SI2EOTVOS. -/
noncomputable def gxx : List ℝ → List ℝ → List ℝ → List (Option Prism) → Except PyErr (List ℝ) :=
  fieldComp kernGxx (G * SI2EOTVOS)

noncomputable def gxy : List ℝ → List ℝ → List ℝ → List (Option Prism) → Except PyErr (List ℝ) :=
  fieldComp kernGxy (G * SI2EOTVOS)

noncomputable def gxz : List ℝ → List ℝ → List ℝ → List (Option Prism) → Except PyErr (List ℝ) :=
  fieldComp kernGxz (G * SI2EOTVOS)

noncomputable def gyy : List ℝ → List ℝ → List ℝ → List (Option Prism) → Except PyErr (List ℝ) :=
  fieldComp kernGyy (G * SI2EOTVOS)

noncomputable def gyz : List ℝ → List ℝ → List ℝ → List (Option Prism) → Except PyErr (List ℝ) :=
  fieldComp kernGyz (G * SI2EOTVOS)

noncomputable def gzz : List ℝ → List ℝ → List ℝ → List (Option Prism) → Except PyErr (List ℝ) :=
  fieldComp kernGzz (G * SI2EOTVOS)

/- A prism whose props dict has no density entry. -/
noncomputable def noDensityPrism : Prism := ⟨2, 3, 2, 3, 2, 3, ⟨none⟩⟩

/- The synthetic prism of the harvester example script. -/
noncomputable def demoPrism : Prism := ⟨4000, 6000, 2000, 8000, 2000, 4000, ⟨some 800⟩⟩

/- Heap of numpy arrays for the side-effect analysis of _prism.gz: arrays
   live in a store and are addressed by their index. -/
abbrev Store := List (List ℝ)

/- The prism loop of _prism.gz acting on the store: res lives at index ri
   and is updated in place by `res += effect` once per prism; a raised
   exception propagates, leaving the store as it stands at that point.
   The temporaries x, y, z are fresh arrays bound to locals and never
   mutated, so they are kept as pure values. -/
noncomputable def gzImpLoop (pts : List (ℝ × ℝ × ℝ)) (ri : ℕ) :
    List (Option Prism) → Store → Store × Except PyErr Unit
  | [], σ => (σ, .ok ())
  | none :: _, σ => (σ, .error .attributeError)
  | some p :: rest, σ =>
    match p.props.density with
    | none => (σ, .error .keyError)
    | some d =>
      gzImpLoop pts ri rest
        (σ.set ri (List.zipWith (fun a b => a + b) (σ.getD ri [])
          (pts.map (prismEffect kernGz d p))))

/- Imperative model of _prism.gz: read the coordinate arrays at their
   indices, run the chained shape guard, allocate res = numpy.zeros_like(xp)
   fresh at the end of the store, run the prism loop accumulating into res
   in place, scale res in place (res *= G*SI2MGAL) and return its index. -/
noncomputable def gzImp (σ : Store) (ixp iyp izp : ℕ) (prisms : List (Option Prism)) :
    Store × Except PyErr ℕ :=
  let xs := σ.getD ixp []
  let ys := σ.getD iyp []
  let zs := σ.getD izp []
  if xs.length ≠ ys.length ∧ ys.length ≠ zs.length then (σ, .error .valueError)
  else
    let ri := σ.length
    match gzImpLoop (zip3 xs ys zs) ri prisms (σ ++ [zerosLike xs]) with
    | (σ₂, .error e) => (σ₂, .error e)
    | (σ₂, .ok _) =>
      (σ₂.set ri ((σ₂.getD ri []).map (fun v => v * (G * SI2MGAL))), .ok ri)

/- Exchanging the roles of the x and y axes of a prism: swap the (x1,x2)
   bounds with the (y1,y2) bounds, keeping z bounds and properties. -/
noncomputable def swapPrism (p : Prism) : Prism :=
  ⟨p.y1, p.y2, p.x1, p.x2, p.z1, p.z2, p.props⟩

/- Two 1-D numpy array lengths broadcast together iff they are equal or
   one of them is 1. -/
def bcompat (a b : ℕ) : Bool := decide (a = b) || decide (a = 1) || decide (b = 1)

/- The length of the numpy broadcast of two compatible 1-D lengths: a
   length-1 array is stretched to the other length. -/
def bclen (a b : ℕ) : ℕ := if a = 1 then b else a

/- Reading a 1-D array under numpy broadcasting: a length-1 array serves
   its single element at every broadcast index. -/
noncomputable def bget (u : List ℝ) (t : ℕ) : ℝ :=
  if u.length = 1 then u.getD 0 0 else u.getD t 0

/- The prism loop of a _prism.py field function under the numpy 1-D
   broadcasting semantics (the model used when xp, yp, zp lengths may
   disagree; fieldLoop is the aligned-length special case).  For a prism
   with a density, the kernel arithmetic (starting with
   x[i]*x[i] + y[j]*y[j] + z[k]*z[k]) combines arrays of the lengths of
   xp, yp and zp and raises the broadcasting ValueError unless those
   lengths are mutually compatible, and the in-place `res += ...` further
   requires the broadcast length to equal res's length (res is
   numpy.zeros_like(xp)); when every check passes the accumulated values
   are the per-point effects read through broadcasting. -/
noncomputable def fieldLoopBC (kern : ℝ → ℝ → ℝ → ℝ) (xp yp zp : List ℝ) :
    List (Option Prism) → List ℝ → Except PyErr (List ℝ)
  | [], res => .ok res
  | none :: _, _ => .error .attributeError
  | some p :: rest, res =>
    match p.props.density with
    | none => .error .keyError
    | some d =>
      if (bcompat xp.length yp.length &&
          bcompat (bclen xp.length yp.length) zp.length &&
          decide (bclen (bclen xp.length yp.length) zp.length = xp.length)) = true then
        fieldLoopBC kern xp yp zp rest
          (List.zipWith
            (fun rv t => rv + prismEffect kern d p (bget xp t, bget yp t, bget zp t))
            res (List.range xp.length))
      else .error .valueError

/- A _prism.py field function under the broadcasting semantics: the
   chained shape guard, the prism loop from numpy.zeros_like(xp), and the
   final in-place scaling. -/
noncomputable def fieldCompBC (kern : ℝ → ℝ → ℝ → ℝ) (scale : ℝ)
    (xp yp zp : List ℝ) (prisms : List (Option Prism)) : Except PyErr (List ℝ) :=
  if xp.length ≠ yp.length ∧ yp.length ≠ zp.length then .error .valueError
  else
    Except.map (fun res => res.map (fun v => v * scale))
      (fieldLoopBC kern xp yp zp prisms (zerosLike xp))

/- _prism.gz under the broadcasting semantics. -/
noncomputable def gzBC :
    List ℝ → List ℝ → List ℝ → List (Option Prism) → Except PyErr (List ℝ) :=
  fieldCompBC kernGz (G * SI2MGAL)

end PrismCore

namespace PrismMod

/- Modelled from src/fatiando/potential/prism.py gz (and identically the
   other component wrappers of that module): for each prism that is not
   None the wrapper evaluates `_prism.prism_gz` before evaluating any
   argument, but the _prism module defines only the bare component names
   pot, gx, gy, gz, gxx, gxy, gxz, gyy, gyz, gzz, so the attribute lookup
   raises AttributeError; None prisms are skipped by `if prism is not
   None`. -/
noncomputable def wrapperLoop (res : List ℝ) : List (Option Prism) → Except PyErr (List ℝ)
  | [] => .ok res
  | none :: rest => wrapperLoop res rest
  | some _ :: _ => .error .attributeError

/- prism.py gz: the same chained shape guard as _prism.py, then the loop
   `res += _prism.prism_gz(...)` over the non-None prisms, started from
   numpy.zeros_like(xp). -/
noncomputable def gz (xp yp zp : List ℝ) (prisms : List (Option Prism)) : Except PyErr (List ℝ) :=
  if xp.length ≠ yp.length ∧ yp.length ≠ zp.length then .error .valueError
  else wrapperLoop (zerosLike xp) prisms

end PrismMod

namespace Harvester

/-- Modelled from the spec: the growth-engine state of §4.5 of the
specification (the fatiando.inversion.harvester module itself is not under
src/, only its example caller).  Per seed it keeps the chain of accepted
cell indices and the frontier of growth candidates, plus the append-only
goal trace, the current goal and misfit values and the stall counter of
the optional stall guard. -/
structure GrowthState where
  chains : List (List ℕ)
  frontiers : List (List ℕ)
  trace : List ℚ
  goal : ℚ
  misfit : ℚ
  stallCount : ℕ

/-- Modelled from the spec: a growth candidate — a frontier cell of one
seed together with the combined goal value and the data misfit that would
result from committing it (§4.5 step 1). -/
structure Candidate where
  seed : ℕ
  cell : ℕ
  goal : ℚ
  misfit : ℚ

/-- Modelled from the spec: the engine configuration — the face-adjacency
of the finite mesh, the candidate evaluation oracle standing for the Data
Modules and Regularizer of §4.2-4.3 (returning the goal and misfit a
candidate would produce), the composed Jury predicate of §4.4, and the
stall-guard parameters of §4.5. -/
structure HarvestConfig where
  adj : ℕ → List ℕ
  evalGoal : ℕ → ℕ → GrowthState → ℚ × ℚ
  accept : Candidate → GrowthState → Bool
  eps : ℚ
  window : ℕ

/-- Modelled from the spec: the three terminal states of the growth
engine state machine (§4.5). -/
inductive Status where
  | converged
  | exhausted
  | stalled
  deriving DecidableEq

/-- Modelled from the spec: the threshold jury of §4.4 — accept when the
goal improves by more than the tolerance AND the misfit improves by more
than the threshold. -/
def thresholdJuryAccept (tol thresh : ℚ) (c : Candidate) (st : GrowthState) : Bool :=
  decide (tol < st.goal - c.goal) && decide (thresh < st.misfit - c.misfit)

/-- Modelled from the spec: §4.5 step 1 — every frontier cell of every
seed is evaluated as a candidate. -/
def candidatesOf (cfg : HarvestConfig) (st : GrowthState) : List Candidate :=
  (List.range st.chains.length).flatMap (fun i =>
    (st.frontiers.getD i []).map (fun cell =>
      ⟨i, cell, (cfg.evalGoal i cell st).1, (cfg.evalGoal i cell st).2⟩))

/-- Modelled from the spec: the candidate ranking order of §4.5 step 2 and
§5 — ascending combined goal value, ties broken by ascending cell index. -/
def rankLE (a b : Candidate) : Prop :=
  a.goal < b.goal ∨ (a.goal = b.goal ∧ a.cell ≤ b.cell)

instance : DecidableRel rankLE := fun a b => by
  unfold rankLE; infer_instance

/-- Modelled from the spec: §4.5 step 3 — committing an accepted
candidate: append its cell to its seed's chain, remove the cell from every
frontier, add its newly exposed neighbors (those in no chain and not
already queued) to its seed's frontier, append the resulting goal value to
the trace, and update the stall counter of the stall guard. -/
def commit (cfg : HarvestConfig) (st : GrowthState) (c : Candidate) : GrowthState :=
  let chains' := st.chains.set c.seed ((st.chains.getD c.seed []) ++ [c.cell])
  let cleaned := st.frontiers.map (fun f => f.filter (fun x => decide (x ≠ c.cell)))
  let fresh := (cfg.adj c.cell).filter (fun x =>
    decide (∀ ch ∈ chains', x ∉ ch) && decide (x ∉ cleaned.getD c.seed []))
  ⟨chains', cleaned.set c.seed ((cleaned.getD c.seed []) ++ fresh),
    st.trace ++ [c.goal], c.goal, c.misfit,
    if st.goal - c.goal < cfg.eps then st.stallCount + 1 else 0⟩

/-- Modelled from the spec: one iteration of the growth engine (§4.5).
If every frontier is empty the engine is EXHAUSTED; otherwise the ranked
candidate list is walked and the first candidate accepted by the Jury is
committed (single accepted growth per iteration), after which the stall
guard may report STALLED; if no candidate is accepted the engine is
CONVERGED. -/
def step (cfg : HarvestConfig) (st : GrowthState) : GrowthState × Option Status :=
  if st.frontiers.all (fun f => f.isEmpty) then (st, some .exhausted)
  else
    match (List.insertionSort rankLE (candidatesOf cfg st)).find? (fun c => cfg.accept c st) with
    | none => (st, some .converged)
    | some c =>
      if 0 < cfg.window ∧ cfg.window ≤ (commit cfg st c).stallCount
      then (commit cfg st c, some .stalled)
      else (commit cfg st c, none)

/-- Modelled from the spec: the state reached after at most k iterations
of the growth engine (a terminal iteration returns its final state). -/
def iterGrow (cfg : HarvestConfig) : ℕ → GrowthState → GrowthState
  | 0, st => st
  | k + 1, st =>
    match step cfg st with
    | (st', some _) => st'
    | (st', none) => iterGrow cfg k st'

/-- Modelled from the spec: harvester.harvest's iteration loop with a
finite maximum-iteration budget; exhausting the budget is reported through
the stall guard's terminal state. -/
def harvestRun (cfg : HarvestConfig) : ℕ → GrowthState → GrowthState × Status
  | 0, st => (st, .stalled)
  | k + 1, st =>
    match step cfg st with
    | (st', some s) => (st', s)
    | (st', none) => harvestRun cfg k st'

/-- Modelled from the spec: a mesh cell's spatial bounds (§3), with
rational coordinates. -/
structure MeshCell where
  x1 : ℚ
  x2 : ℚ
  y1 : ℚ
  y2 : ℚ
  z1 : ℚ
  z2 : ℚ

/-- Modelled from the spec: a raw seed given as spatial coordinates plus
the target property value (§4.1). -/
structure SeedSpec where
  point : ℚ × ℚ × ℚ
  density : ℚ

/-- Modelled from the spec: a sown Seed — the resolved mesh cell index,
the fixed target property value, and the chain initialized to the
singleton containing the seed's own cell (§3, §4.1). -/
structure Seed where
  cell : ℕ
  density : ℚ
  chain : List ℕ
  deriving DecidableEq

/-- Modelled from the spec: the configuration errors of sow (§4.1). -/
inductive SowError where
  | outOfBounds
  | duplicateSeed
  deriving DecidableEq

/-- Modelled from the spec: whether a mesh cell contains a point (bounds
taken as closed intervals). -/
def cellContains (c : MeshCell) (p : ℚ × ℚ × ℚ) : Bool :=
  decide (c.x1 ≤ p.1) && decide (p.1 ≤ c.x2) && decide (c.y1 ≤ p.2.1) &&
    decide (p.2.1 ≤ c.y2) && decide (c.z1 ≤ p.2.2) && decide (p.2.2 ≤ c.z2)

/-- Modelled from the spec: scan of the mesh for the first cell
containing a point, returning its linear index. -/
def findCellAux (p : ℚ × ℚ × ℚ) : List MeshCell → ℕ → Option ℕ
  | [], _ => none
  | c :: rest, k => if cellContains c p then some k else findCellAux p rest (k + 1)

/-- Modelled from the spec: resolve a spatial point to the index of the
containing mesh cell, if any (§4.1). -/
def findCell (mesh : List MeshCell) (p : ℚ × ℚ × ℚ) : Option ℕ := findCellAux p mesh 0

/-- Modelled from the spec: resolve every seed spec in order, failing with
OutOfBoundsError on the first spec whose point no cell contains. -/
def resolveSpecs (mesh : List MeshCell) : List SeedSpec → Except SowError (List ℕ)
  | [] => .ok []
  | s :: rest =>
    match findCell mesh s.point with
    | none => .error .outOfBounds
    | some i => Except.map (fun l => i :: l) (resolveSpecs mesh rest)

/-- Modelled from the spec: build the ordered Seed list, one Seed per
spec, each with a singleton chain holding its own cell. -/
def mkSeeds (specs : List SeedSpec) (idxs : List ℕ) : List Seed :=
  List.zipWith (fun s i => ⟨i, s.density, [i]⟩) specs idxs

/-- Modelled from the spec: sow(mesh, seed_specs) of §4.1 — resolve every
spec to a cell index (OutOfBoundsError if some point is in no cell),
assert that no two seeds resolve to the same cell (DuplicateSeedError
otherwise) and return the ordered Seeds with singleton chains. -/
def sow (mesh : List MeshCell) (specs : List SeedSpec) : Except SowError (List Seed) :=
  match resolveSpecs mesh specs with
  | .error e => .error e
  | .ok idxs => if idxs.Nodup then .ok (mkSeeds specs idxs) else .error .duplicateSeed

/-- Modelled from the spec: the invariant of §3 and §8 — chains are
pairwise disjoint, each chain is nonempty (it contains at least its seed
cell), no frontier cell is in any chain, and the frontier list is aligned
with the chain list. -/
def Inv (st : GrowthState) : Prop :=
  List.Pairwise (fun a b => ∀ x ∈ a, x ∉ b) st.chains ∧
    (∀ ch ∈ st.chains, ch ≠ []) ∧
    (∀ f ∈ st.frontiers, ∀ x ∈ f, ∀ ch ∈ st.chains, x ∉ ch) ∧
    st.frontiers.length = st.chains.length

/-- Modelled from the spec: well-formedness of the goal trace — it is
non-increasing and the current goal value is at most its last entry. -/
def TraceOK (st : GrowthState) : Prop :=
  List.Chain' (fun a b => b ≤ a) st.trace ∧
    ∀ g, st.trace.getLast? = some g → st.goal ≤ g

/- Concrete data for the witnesses. -/
def demoCfg : HarvestConfig :=
  ⟨fun n => [n + 1], fun _ _ _ => (0, 0), fun _ _ => false, 0, 0⟩

def demoCfgJury : HarvestConfig :=
  ⟨fun n => [n + 1], fun _ _ _ => (0, 0), thresholdJuryAccept 0 0, 0, 0⟩

def demoState : GrowthState := ⟨[[0], [7]], [[1], [8]], [10], 10, 10, 0⟩

def demoMesh : List MeshCell := [⟨0, 1, 0, 1, 0, 1⟩, ⟨2, 3, 0, 1, 0, 1⟩]

def demoSpecs : List SeedSpec := [⟨(0, 0, 0), 800⟩, ⟨(2, 0, 0), 800⟩]

end Harvester

/- ------------------------------------------------------------------ -/
/- Theorems.                                                           -/
/- ------------------------------------------------------------------ -/

/- The prism loop of _prism.py can raise AttributeError or KeyError but
   never ValueError: the shape guard is the only source of ValueError. -/
theorem fieldLoop_ne_valueError (kern : ℝ → ℝ → ℝ → ℝ) (pts : List (ℝ × ℝ × ℝ)) :
    ∀ (prisms : List (Option Prism)) (res : List ℝ),
      PrismCore.fieldLoop kern pts prisms res ≠ .error .valueError := by
  intro prisms
  induction prisms with
  | nil => intro res; simp [PrismCore.fieldLoop]
  | cons q rest ih =>
    intro res
    cases q with
    | none => simp [PrismCore.fieldLoop]
    | some p =>
      cases hd : p.props.density with
      | none => simp [PrismCore.fieldLoop, hd]
      | some d => simpa [PrismCore.fieldLoop, hd] using ih _

/- The wrapper loop of prism.py raises AttributeError on the first
   non-None prism. -/
theorem wrapperLoop_error (res : List ℝ) (prisms : List (Option Prism))
    (h : ∃ p ∈ prisms, p ≠ none) :
    PrismMod.wrapperLoop res prisms = .error .attributeError := by
  induction prisms with
  | nil => rcases h with ⟨p, hp, _⟩; cases hp
  | cons q rest ih =>
    cases q with
    | none =>
      rcases h with ⟨p, hp, hne⟩
      rcases List.mem_cons.mp hp with rfl | hp'
      · exact absurd rfl hne
      · simpa [PrismMod.wrapperLoop] using ih ⟨p, hp', hne⟩
    | some _ => rfl

/- The wrapper loop of prism.py skips None prisms, returning res. -/
theorem wrapperLoop_ok (res : List ℝ) (prisms : List (Option Prism))
    (h : ∀ p ∈ prisms, p = none) :
    PrismMod.wrapperLoop res prisms = .ok res := by
  induction prisms with
  | nil => rfl
  | cons q rest ih =>
    cases q with
    | none => simpa [PrismMod.wrapperLoop] using ih (fun p hp => h p (List.mem_cons_of_mem _ hp))
    | some p => exact absurd (h (some p) (List.mem_cons_self _ _)) (by simp)

/- The wrapper loop never raises ValueError. -/
theorem wrapperLoop_ne_valueError (res : List ℝ) (prisms : List (Option Prism)) :
    PrismMod.wrapperLoop res prisms ≠ .error .valueError := by
  induction prisms with
  | nil => simp [PrismMod.wrapperLoop]
  | cons q rest ih =>
    cases q with
    | none => simpa [PrismMod.wrapperLoop] using ih
    | some _ => simp [PrismMod.wrapperLoop]

/-- C2: the spec says that None prisms and prisms whose property mapping
has no density are excluded from the forward-model summation and cause no
error, as the docstrings of _prism.py themselves state.  The guard
`if prism is None and 'density' not in prism.props` uses `and` where `or`
was meant: on a None prism the right operand dereferences None and raises
AttributeError, and on a prism without density the guard is False, so
`prism.props['density']` raises KeyError — the code contradicts its own
documentation. -/
theorem gz_skip_guard_bug :
    PrismCore.gz [(0 : ℝ)] [0] [0] [none] = .error .attributeError ∧
    PrismCore.gz [(0 : ℝ)] [0] [0] [some PrismCore.noDensityPrism] = .error .keyError := by
  constructor <;> rfl

/- The broadcasting prism loop raises only AttributeError or KeyError
   when the three array lengths pass the broadcast checks. -/
theorem fieldLoopBC_ne_valueError (kern : ℝ → ℝ → ℝ → ℝ) (xp yp zp : List ℝ)
    (hck : (PrismCore.bcompat xp.length yp.length &&
        PrismCore.bcompat (PrismCore.bclen xp.length yp.length) zp.length &&
        decide (PrismCore.bclen (PrismCore.bclen xp.length yp.length) zp.length =
          xp.length)) = true) :
    ∀ (prisms : List (Option Prism)) (res : List ℝ),
      PrismCore.fieldLoopBC kern xp yp zp prisms res ≠ .error .valueError := by
  intro prisms
  induction prisms with
  | nil => intro res; simp [PrismCore.fieldLoopBC]
  | cons q rest ih =>
    intro res
    cases q with
    | none => simp [PrismCore.fieldLoopBC]
    | some p =>
      cases hd : p.props.density with
      | none => simp [PrismCore.fieldLoopBC, hd]
      | some d =>
        simp only [PrismCore.fieldLoopBC, hd, hck]
        rw [if_true]
        exact ih _

/-- C8 counterexample: the claim says that for every call where xp and yp
share one shape and zp has a different shape no ValueError is raised and
the computation proceeds; but with xp = yp of length 2, zp of length 3
and one density-bearing prism, the chained guard indeed passes and then
the elementwise kernel arithmetic raises the numpy broadcasting
ValueError. -/
theorem shape_guard_chained_counterexample :
    ([(0 : ℝ), 0].length = [(0 : ℝ), 0].length ∧
      [(0 : ℝ), 0].length ≠ [(0 : ℝ), 0, 0].length) ∧
    PrismCore.gzBC [(0 : ℝ), 0] [0, 0] [0, 0, 0] [some PrismCore.demoPrism] =
      .error .valueError :=
  ⟨by decide, by rfl⟩

/-- C8 amended: the explicit shape guard raises its ValueError only when
xp.shape differs from yp.shape AND yp.shape differs from zp.shape (the
chained comparison 'xp.shape != yp.shape != zp.shape'); when xp and yp
share one shape and zp differs, the guard itself raises nothing and
execution proceeds past it into the prism loop — but there, as soon as a
prism with a density contributes, the numpy elementwise arithmetic
raises a broadcasting ValueError (a length-1 zp being the only
mismatched shape res can still absorb is excluded by the zp.length ≠ 1
hypothesis); with broadcast-compatible lengths whose result matches res
no ValueError is ever raised past the guard.  The prism.py wrapper
reaches no elementwise arithmetic, so it raises ValueError exactly on
the doubly-mismatched case. -/
theorem shape_guard_amended (kern : ℝ → ℝ → ℝ → ℝ) (scale : ℝ) (xp yp zp : List ℝ)
    (prisms : List (Option Prism)) :
    ((xp.length ≠ yp.length ∧ yp.length ≠ zp.length) →
      PrismCore.fieldCompBC kern scale xp yp zp prisms = .error .valueError) ∧
    (xp.length = yp.length → yp.length ≠ zp.length → zp.length ≠ 1 →
      ∀ p d rest, prisms = some p :: rest → p.props.density = some d →
        PrismCore.fieldCompBC kern scale xp yp zp prisms = .error .valueError) ∧
    (¬(xp.length ≠ yp.length ∧ yp.length ≠ zp.length) →
      (PrismCore.bcompat xp.length yp.length &&
        PrismCore.bcompat (PrismCore.bclen xp.length yp.length) zp.length &&
        decide (PrismCore.bclen (PrismCore.bclen xp.length yp.length) zp.length =
          xp.length)) = true →
      PrismCore.fieldCompBC kern scale xp yp zp prisms ≠ .error .valueError) ∧
    (PrismMod.gz xp yp zp prisms = .error .valueError ↔
      (xp.length ≠ yp.length ∧ yp.length ≠ zp.length)) := by
  refine ⟨?_, ?_, ?_, ?_⟩
  · intro hg
    simp [PrismCore.fieldCompBC, hg]
  · intro hab hbc hc1 p d rest hpr hd
    subst hpr
    have hg : ¬(xp.length ≠ yp.length ∧ yp.length ≠ zp.length) := by simp [hab]
    have hck : (PrismCore.bcompat xp.length yp.length &&
        PrismCore.bcompat (PrismCore.bclen xp.length yp.length) zp.length &&
        decide (PrismCore.bclen (PrismCore.bclen xp.length yp.length) zp.length =
          xp.length)) = false := by
      by_cases h1 : yp.length = 1
      · have ha1 : xp.length = 1 := by rw [hab, h1]
        simp [PrismCore.bcompat, PrismCore.bclen, ha1, h1, hc1]
      · have ha1 : ¬xp.length = 1 := by rw [hab]; exact h1
        have hac : ¬xp.length = zp.length := by rw [hab]; exact hbc
        simp [PrismCore.bcompat, PrismCore.bclen, ha1, h1, hc1, hac]
    unfold PrismCore.fieldCompBC
    rw [if_neg hg]
    simp [PrismCore.fieldLoopBC, hd, hck, Except.map]
  · intro hg hck hcontra
    unfold PrismCore.fieldCompBC at hcontra
    rw [if_neg hg] at hcontra
    cases hL : PrismCore.fieldLoopBC kern xp yp zp prisms (zerosLike xp) with
    | ok v => rw [hL] at hcontra; exact absurd hcontra (by simp [Except.map])
    | error e =>
      rw [hL] at hcontra
      simp [Except.map] at hcontra
      exact absurd (hcontra ▸ hL) (fieldLoopBC_ne_valueError kern xp yp zp hck prisms _)
  · unfold PrismMod.gz
    by_cases h : xp.length ≠ yp.length ∧ yp.length ≠ zp.length
    · simp [h]
    · rw [if_neg h]
      constructor
      · intro hc; exact absurd hc (wrapperLoop_ne_valueError _ _)
      · intro hc; exact absurd hc h

/-- C8 witness: with xp = yp of length 1 and zp of length 3, the guard
passes, the three lengths broadcast to length 3, and the in-place
`res += ...` into the length-1 res raises the broadcasting ValueError. -/
theorem shape_guard_amended_witness :
    PrismCore.fieldCompBC PrismCore.kernGz (PrismCore.G * PrismCore.SI2MGAL)
        [(0 : ℝ)] [0] [0, 0, 0] [some PrismCore.demoPrism] = .error .valueError :=
  (shape_guard_amended PrismCore.kernGz (PrismCore.G * PrismCore.SI2MGAL)
      [(0 : ℝ)] [0] [0, 0, 0] [some PrismCore.demoPrism]).2.1
    rfl (by decide) (by decide) PrismCore.demoPrism 800 [] rfl rfl

/-- C9: every call of the prism.py wrapper gz whose prism list contains a
non-None entry raises AttributeError (the wrapper invokes
_prism.prism_gz, but _prism defines only the bare component names); an
empty or all-None prism list returns normally with an all-zeros array
shaped like xp. -/
theorem wrapper_gz_attribute_bug (xp yp zp : List ℝ) (prisms : List (Option Prism))
    (hlen : ¬(xp.length ≠ yp.length ∧ yp.length ≠ zp.length)) :
    ((∃ p ∈ prisms, p ≠ none) → PrismMod.gz xp yp zp prisms = .error .attributeError) ∧
    ((∀ p ∈ prisms, p = none) → PrismMod.gz xp yp zp prisms = .ok (zerosLike xp)) := by
  unfold PrismMod.gz
  rw [if_neg hlen]
  exact ⟨wrapperLoop_error _ prisms, wrapperLoop_ok _ prisms⟩

/- Pointwise addition of arrays is associative (with numpy-style
   truncation to the shorter operand). -/
theorem zipWith_add_assoc (a b c : List ℝ) :
    List.zipWith (fun x y => x + y) (List.zipWith (fun x y => x + y) a b) c =
      List.zipWith (fun x y => x + y) a (List.zipWith (fun x y => x + y) b c) := by
  induction a generalizing b c with
  | nil => simp
  | cons x xs ih =>
    cases b with
    | nil => simp
    | cons y ys =>
      cases c with
      | nil => simp
      | cons z zs => simp [ih, add_assoc]

theorem length_zerosLike (xs : List ℝ) : (zerosLike xs).length = xs.length := by
  simp [zerosLike]

/- Adding the zero array changes nothing. -/
theorem zipWith_add_zerosLike (acc xs : List ℝ) (h : acc.length ≤ xs.length) :
    List.zipWith (fun a b => a + b) acc (zerosLike xs) = acc := by
  induction acc generalizing xs with
  | nil => simp
  | cons a as ih =>
    cases xs with
    | nil => simp at h
    | cons x xs' =>
      have h' : as.length ≤ xs'.length := by simpa using h
      have hih := ih xs' h'
      simp only [zerosLike, List.map_cons, List.zipWith_cons_cons, add_zero] at hih ⊢
      rw [hih]

/- The prism loop over a concatenation: run the first list, then the
   second from the accumulated result. -/
theorem fieldLoop_append (kern : ℝ → ℝ → ℝ → ℝ) (pts : List (ℝ × ℝ × ℝ)) :
    ∀ (A B : List (Option Prism)) (res r : List ℝ),
      PrismCore.fieldLoop kern pts A res = .ok r →
      PrismCore.fieldLoop kern pts (A ++ B) res = PrismCore.fieldLoop kern pts B r := by
  intro A
  induction A with
  | nil =>
    intro B res r h
    obtain rfl : res = r := by simpa [PrismCore.fieldLoop] using h
    rfl
  | cons q rest ih =>
    intro B res r h
    cases q with
    | none => exact absurd h (by simp [PrismCore.fieldLoop])
    | some p =>
      cases hd : p.props.density with
      | none => exact absurd h (by simp [PrismCore.fieldLoop, hd])
      | some d =>
        have h' := h
        simp only [PrismCore.fieldLoop, hd] at h'
        simpa [PrismCore.fieldLoop, hd] using ih B _ r h'

/- Starting the prism loop from acc + res adds acc pointwise to the
   result of starting it from res. -/
theorem fieldLoop_shift (kern : ℝ → ℝ → ℝ → ℝ) (pts : List (ℝ × ℝ × ℝ)) :
    ∀ (B : List (Option Prism)) (acc res : List ℝ),
      PrismCore.fieldLoop kern pts B (List.zipWith (fun a b => a + b) acc res) =
        Except.map (fun w => List.zipWith (fun a b => a + b) acc w)
          (PrismCore.fieldLoop kern pts B res) := by
  intro B
  induction B with
  | nil => intro acc res; rfl
  | cons q rest ih =>
    intro acc res
    cases q with
    | none => rfl
    | some p =>
      cases hd : p.props.density with
      | none => simp [PrismCore.fieldLoop, hd, Except.map]
      | some d =>
        simp only [PrismCore.fieldLoop, hd]
        rw [zipWith_add_assoc]
        exact ih acc _

/- The prism loop preserves the array length when the accumulator is
   aligned with the observation points. -/
theorem fieldLoop_ok_length (kern : ℝ → ℝ → ℝ → ℝ) (pts : List (ℝ × ℝ × ℝ)) :
    ∀ (prisms : List (Option Prism)) (res r : List ℝ),
      res.length = pts.length →
      PrismCore.fieldLoop kern pts prisms res = .ok r → r.length = pts.length := by
  intro prisms
  induction prisms with
  | nil =>
    intro res r hl h
    obtain rfl : res = r := by simpa [PrismCore.fieldLoop] using h
    exact hl
  | cons q rest ih =>
    intro res r hl h
    cases q with
    | none => exact absurd h (by simp [PrismCore.fieldLoop])
    | some p =>
      cases hd : p.props.density with
      | none => exact absurd h (by simp [PrismCore.fieldLoop, hd])
      | some d =>
        have h' := h
        simp only [PrismCore.fieldLoop, hd] at h'
        exact ih _ r (by simp [hl]) h'

/- The final in-place scaling distributes over pointwise addition. -/
theorem map_scale_zipWith_add (u v : List ℝ) (s : ℝ) :
    (List.zipWith (fun a b => a + b) u v).map (fun x => x * s) =
      List.zipWith (fun a b => a + b) (u.map (fun x => x * s)) (v.map (fun x => x * s)) := by
  induction u generalizing v with
  | nil => simp
  | cons a as ih =>
    cases v with
    | nil => simp
    | cons b bs => simp [ih, add_mul]

theorem zip3_length (xp yp zp : List ℝ) (h1 : xp.length = yp.length)
    (h2 : yp.length = zp.length) : (zip3 xp yp zp).length = xp.length := by
  simp only [zip3, List.length_zip]
  omega

/-- C1: forward-field evaluation is additive over the source list: for
aligned computation-point arrays and any two prism lists A and B that
evaluate without error, the field of A ++ B is the pointwise sum of the
fields of A and B.  Stated for the generic field function fieldComp, so it
covers gz = fieldComp kernGz (G*SI2MGAL) and every gradient component
(gxx, ..., gzz = fieldComp kern (G*SI2EOTVOS)) by instantiation. -/
theorem fieldComp_superposition (kern : ℝ → ℝ → ℝ → ℝ) (scale : ℝ)
    (xp yp zp : List ℝ) (A B : List (Option Prism)) (ra rb : List ℝ)
    (h1 : xp.length = yp.length) (h2 : yp.length = zp.length)
    (hA : PrismCore.fieldComp kern scale xp yp zp A = .ok ra)
    (hB : PrismCore.fieldComp kern scale xp yp zp B = .ok rb) :
    PrismCore.fieldComp kern scale xp yp zp (A ++ B) =
      .ok (List.zipWith (fun a b => a + b) ra rb) := by
  have hg : ¬(xp.length ≠ yp.length ∧ yp.length ≠ zp.length) := by simp [h1]
  unfold PrismCore.fieldComp at hA hB ⊢
  rw [if_neg hg] at hA hB ⊢
  have hptsl : (zip3 xp yp zp).length = xp.length := zip3_length xp yp zp h1 h2
  cases hLA : PrismCore.fieldLoop kern (zip3 xp yp zp) A (zerosLike xp) with
  | error e => rw [hLA] at hA; exact absurd hA (by simp [Except.map])
  | ok sa =>
    cases hLB : PrismCore.fieldLoop kern (zip3 xp yp zp) B (zerosLike xp) with
    | error e => rw [hLB] at hB; exact absurd hB (by simp [Except.map])
    | ok sb =>
      rw [hLA] at hA
      rw [hLB] at hB
      have hra : sa.map (fun x => x * scale) = ra := by
        simpa [Except.map] using hA
      have hrb : sb.map (fun x => x * scale) = rb := by
        simpa [Except.map] using hB
      have hsalen : sa.length = (zip3 xp yp zp).length :=
        fieldLoop_ok_length kern (zip3 xp yp zp) A (zerosLike xp) sa
          (by rw [length_zerosLike, hptsl]) hLA
      have habs : List.zipWith (fun a b => a + b) sa (zerosLike xp) = sa :=
        zipWith_add_zerosLike sa xp (by rw [hsalen, hptsl])
      have happ := fieldLoop_append kern (zip3 xp yp zp) A B (zerosLike xp) sa hLA
      have hshift : PrismCore.fieldLoop kern (zip3 xp yp zp) B sa =
          .ok (List.zipWith (fun a b => a + b) sa sb) := by
        have h0 := fieldLoop_shift kern (zip3 xp yp zp) B sa (zerosLike xp)
        rw [habs, hLB] at h0
        simpa [Except.map] using h0
      rw [happ, hshift]
      simp [Except.map, map_scale_zipWith_add, hra, hrb]

/-- C1 witness: instantiating the superposition theorem for gz's kernel
and scale at a concrete input. -/
theorem fieldComp_superposition_witness :
    PrismCore.fieldComp PrismCore.kernGz (PrismCore.G * PrismCore.SI2MGAL)
        [] [] [] ([] ++ []) = .ok (List.zipWith (fun a b => a + b) [] []) :=
  fieldComp_superposition PrismCore.kernGz (PrismCore.G * PrismCore.SI2MGAL)
    [] [] [] [] [] [] [] rfl rfl rfl rfl

/- Exchanging the roles of the first two arguments maps the gy kernel
   exactly onto the gx kernel. -/
theorem kernGy_swap (a b z : ℝ) : PrismCore.kernGy b a z = PrismCore.kernGx a b z := by
  simp only [PrismCore.kernGy, PrismCore.kernGx]
  have hr : b * b + a * a + z * z = a * a + b * b + z * z := by ring
  rw [hr, mul_comm b z]
  ring

/- The eight-corner sum of gy on the x/y-swapped prism at the swapped
   observation point equals the eight-corner sum of gx. -/
theorem eightSum_swap (p : Prism) (px py pz : ℝ) :
    PrismCore.eightSum PrismCore.kernGy (PrismCore.swapPrism p) (py, px, pz) =
      PrismCore.eightSum PrismCore.kernGx p (px, py, pz) := by
  simp only [PrismCore.eightSum, PrismCore.swapPrism, kernGy_swap]
  ring

theorem prismEffect_swap (d : ℝ) (p : Prism) (t : ℝ × ℝ × ℝ) :
    PrismCore.prismEffect PrismCore.kernGy d (PrismCore.swapPrism p) (t.2.1, t.1, t.2.2) =
      PrismCore.prismEffect PrismCore.kernGx d p t := by
  obtain ⟨a, b, c⟩ := t
  simp only [PrismCore.prismEffect]
  rw [eightSum_swap]

theorem zip3_swap (xp yp zp : List ℝ) :
    zip3 yp xp zp = (zip3 xp yp zp).map (fun t => (t.2.1, t.1, t.2.2)) := by
  induction xp generalizing yp zp with
  | nil => cases yp <;> cases zp <;> rfl
  | cons x xs ih =>
    cases yp with
    | nil => rfl
    | cons y ys =>
      cases zp with
      | nil => rfl
      | cons z zs => simpa [zip3] using ih ys zs

theorem zerosLike_congr (xs ys : List ℝ) (h : xs.length = ys.length) :
    zerosLike xs = zerosLike ys := by
  simp [zerosLike, List.map_const', h]

/- The prism loop of gy on the swapped data coincides with the prism loop
   of gx on the original data. -/
theorem fieldLoop_swap (pts : List (ℝ × ℝ × ℝ)) :
    ∀ (prisms : List (Option Prism)) (res : List ℝ),
      PrismCore.fieldLoop PrismCore.kernGy (pts.map (fun t => (t.2.1, t.1, t.2.2)))
          (prisms.map (Option.map PrismCore.swapPrism)) res =
        PrismCore.fieldLoop PrismCore.kernGx pts prisms res := by
  intro prisms
  induction prisms with
  | nil => intro res; rfl
  | cons q rest ih =>
    intro res
    cases q with
    | none => rfl
    | some p =>
      cases hd : p.props.density with
      | none =>
        have hd' : (PrismCore.swapPrism p).props.density = none := hd
        simp [PrismCore.fieldLoop, PrismCore.swapPrism, hd]
      | some d =>
        have hd' : (PrismCore.swapPrism p).props.density = some d := hd
        simp only [List.map_cons, Option.map_some', PrismCore.fieldLoop, hd, hd']
        have hmap : (pts.map (fun t => (t.2.1, t.1, t.2.2))).map
            (PrismCore.prismEffect PrismCore.kernGy d (PrismCore.swapPrism p)) =
            pts.map (PrismCore.prismEffect PrismCore.kernGx d p) := by
          rw [List.map_map]
          exact List.map_congr_left (fun t _ => prismEffect_swap d p t)
        rw [hmap]
        exact ih _

/-- C10: _prism.gx omits the SI-to-mGal conversion that gy and gz apply:
exchanging the x and y roles (swap xp with yp and each prism's (x1,x2)
bounds with its (y1,y2) bounds) maps the gy kernel exactly onto the gx
kernel, so gy on the swapped input equals SI2MGAL times gx on the
original input — not the symmetric equality gy(swapped) = gx(original). -/
theorem gx_missing_si2mgal (xp yp zp : List ℝ) (prisms : List (Option Prism))
    (h1 : xp.length = yp.length) (_h2 : yp.length = zp.length) :
    PrismCore.gy yp xp zp (prisms.map (Option.map PrismCore.swapPrism)) =
      Except.map (fun res => res.map (fun v => PrismCore.SI2MGAL * v))
        (PrismCore.gx xp yp zp prisms) := by
  unfold PrismCore.gy PrismCore.gx PrismCore.fieldComp
  have hgy : ¬(yp.length ≠ xp.length ∧ xp.length ≠ zp.length) := by simp [h1.symm]
  have hgx : ¬(xp.length ≠ yp.length ∧ yp.length ≠ zp.length) := by simp [h1]
  rw [if_neg hgy, if_neg hgx]
  rw [zip3_swap, zerosLike_congr yp xp h1.symm, fieldLoop_swap]
  cases hL : PrismCore.fieldLoop PrismCore.kernGx (zip3 xp yp zp) prisms (zerosLike xp) with
  | error e => simp [Except.map]
  | ok v =>
    simp only [Except.map, List.map_map]
    exact congrArg Except.ok (List.map_congr_left (fun a _ => by
      simp only [Function.comp_apply]
      ring))

/-- C10 witness: the swap relation instantiated at one observation point
and the example script's prism. -/
theorem gx_missing_si2mgal_witness :
    PrismCore.gy [(0 : ℝ)] [0] [0]
        ([some PrismCore.demoPrism].map (Option.map PrismCore.swapPrism)) =
      Except.map (fun res => res.map (fun v => PrismCore.SI2MGAL * v))
        (PrismCore.gx [(0 : ℝ)] [0] [0] [some PrismCore.demoPrism]) :=
  gx_missing_si2mgal [(0 : ℝ)] [0] [0] [some PrismCore.demoPrism] rfl rfl

/- PrismCore.Store lemmas: reading after set/append. -/
theorem store_getD_set_self (σ : PrismCore.Store) (i : ℕ) (v : List ℝ) (h : i < σ.length) :
    (σ.set i v).getD i [] = v := by
  rw [List.getD_eq_getElem?_getD, List.getElem?_set_eq_of_lt v h]
  rfl

theorem store_getD_set_ne (σ : PrismCore.Store) (i j : ℕ) (v : List ℝ) (h : i ≠ j) :
    (σ.set i v).getD j [] = σ.getD j [] := by
  rw [List.getD_eq_getElem?_getD, List.getD_eq_getElem?_getD, List.getElem?_set_ne h]

theorem store_getD_append_lt (σ : PrismCore.Store) (w : List ℝ) (j : ℕ) (h : j < σ.length) :
    (σ ++ [w]).getD j [] = σ.getD j [] := by
  rw [List.getD_eq_getElem?_getD, List.getD_eq_getElem?_getD, List.getElem?_append_left h]

theorem store_getD_append_self (σ : PrismCore.Store) (w : List ℝ) :
    (σ ++ [w]).getD σ.length [] = w := by
  rw [List.getD_eq_getElem?_getD, List.getElem?_concat_length]
  rfl

/- The imperative prism loop writes only at the result index ri. -/
theorem gzImpLoop_frame (pts : List (ℝ × ℝ × ℝ)) (ri : ℕ) :
    ∀ (prisms : List (Option Prism)) (σ : PrismCore.Store) (j : ℕ), j ≠ ri →
      ((PrismCore.gzImpLoop pts ri prisms σ).1).getD j [] = σ.getD j [] := by
  intro prisms
  induction prisms with
  | nil => intro σ j hj; rfl
  | cons q rest ih =>
    intro σ j hj
    cases q with
    | none => rfl
    | some p =>
      cases hd : p.props.density with
      | none => simp [PrismCore.gzImpLoop, hd]
      | some d =>
        simp only [PrismCore.gzImpLoop, hd]
        rw [ih _ j hj, store_getD_set_ne _ _ _ _ (Ne.symm hj)]

/- The imperative prism loop preserves the store size. -/
theorem gzImpLoop_length (pts : List (ℝ × ℝ × ℝ)) (ri : ℕ) :
    ∀ (prisms : List (Option Prism)) (σ : PrismCore.Store),
      ((PrismCore.gzImpLoop pts ri prisms σ).1).length = σ.length := by
  intro prisms
  induction prisms with
  | nil => intro σ; rfl
  | cons q rest ih =>
    intro σ
    cases q with
    | none => rfl
    | some p =>
      cases hd : p.props.density with
      | none => simp [PrismCore.gzImpLoop, hd]
      | some d =>
        simp only [PrismCore.gzImpLoop, hd]
        rw [ih, List.length_set]

/- The imperative prism loop agrees with the pure prism loop: it raises
   the same exception, or ends with the pure result stored at ri. -/
theorem gzImpLoop_pure (pts : List (ℝ × ℝ × ℝ)) (ri : ℕ) :
    ∀ (prisms : List (Option Prism)) (σ : PrismCore.Store), ri < σ.length →
      (∀ e, PrismCore.fieldLoop PrismCore.kernGz pts prisms (σ.getD ri []) = .error e →
          (PrismCore.gzImpLoop pts ri prisms σ).2 = .error e) ∧
      (∀ r, PrismCore.fieldLoop PrismCore.kernGz pts prisms (σ.getD ri []) = .ok r →
          (PrismCore.gzImpLoop pts ri prisms σ).2 = .ok () ∧
          ((PrismCore.gzImpLoop pts ri prisms σ).1).getD ri [] = r) := by
  intro prisms
  induction prisms with
  | nil =>
    intro σ h
    constructor
    · intro e he; exact absurd he (by simp [PrismCore.fieldLoop])
    · intro r hr
      obtain rfl : σ.getD ri [] = r := by simpa [PrismCore.fieldLoop] using hr
      exact ⟨rfl, rfl⟩
  | cons q rest ih =>
    intro σ h
    cases q with
    | none =>
      constructor
      · intro e he
        obtain rfl : PyErr.attributeError = e := by
          simpa [PrismCore.fieldLoop] using he
        rfl
      · intro r hr; exact absurd hr (by simp [PrismCore.fieldLoop])
    | some p =>
      cases hd : p.props.density with
      | none =>
        constructor
        · intro e he
          obtain rfl : PyErr.keyError = e := by
            simpa [PrismCore.fieldLoop, hd] using he
          simp [PrismCore.gzImpLoop, hd]
        · intro r hr; exact absurd hr (by simp [PrismCore.fieldLoop, hd])
      | some d =>
        have hlen : ri < (σ.set ri (List.zipWith (fun a b => a + b) (σ.getD ri [])
            (pts.map (PrismCore.prismEffect PrismCore.kernGz d p)))).length := by
          rw [List.length_set]; exact h
        have hacc : (σ.set ri (List.zipWith (fun a b => a + b) (σ.getD ri [])
            (pts.map (PrismCore.prismEffect PrismCore.kernGz d p)))).getD ri [] =
            List.zipWith (fun a b => a + b) (σ.getD ri [])
              (pts.map (PrismCore.prismEffect PrismCore.kernGz d p)) :=
          store_getD_set_self σ ri _ h
        have hih := ih _ hlen
        rw [hacc] at hih
        constructor
        · intro e he
          have he' : PrismCore.fieldLoop PrismCore.kernGz pts rest
              (List.zipWith (fun a b => a + b) (σ.getD ri [])
                (pts.map (PrismCore.prismEffect PrismCore.kernGz d p))) = .error e := by
            simpa [PrismCore.fieldLoop, hd] using he
          simpa [PrismCore.gzImpLoop, hd] using hih.1 e he'
        · intro r hr
          have hr' : PrismCore.fieldLoop PrismCore.kernGz pts rest
              (List.zipWith (fun a b => a + b) (σ.getD ri [])
                (pts.map (PrismCore.prismEffect PrismCore.kernGz d p))) = .ok r := by
            simpa [PrismCore.fieldLoop, hd] using hr
          simpa [PrismCore.gzImpLoop, hd] using hih.2 r hr'

/-- C3: forward-field evaluation is deterministic and side-effect-free.
In the store model of _prism.gz, the returned value (the array at the
returned fresh index, or the raised exception) equals the pure function
gz of the values of xp, yp, zp and the prism list — so two calls on equal
inputs return identical outputs — and every array that existed before the
call is unchanged afterwards: the result is accumulated only into the
freshly allocated res. -/
theorem gzImp_pure_and_frame (σ : PrismCore.Store) (ixp iyp izp : ℕ) (prisms : List (Option Prism)) :
    Except.map (fun r => ((PrismCore.gzImp σ ixp iyp izp prisms).1).getD r [])
        ((PrismCore.gzImp σ ixp iyp izp prisms).2) =
      PrismCore.gz (σ.getD ixp []) (σ.getD iyp []) (σ.getD izp []) prisms ∧
    ∀ j, j < σ.length → ((PrismCore.gzImp σ ixp iyp izp prisms).1).getD j [] = σ.getD j [] := by
  simp only [PrismCore.gzImp, PrismCore.gz, PrismCore.fieldComp]
  by_cases hg : (σ.getD ixp []).length ≠ (σ.getD iyp []).length ∧
      (σ.getD iyp []).length ≠ (σ.getD izp []).length
  · rw [if_pos hg, if_pos hg]
    exact ⟨rfl, fun j _ => rfl⟩
  · rw [if_neg hg, if_neg hg]
    have hri : σ.length < (σ ++ [zerosLike (σ.getD ixp [])]).length := by
      simp
    have hacc : (σ ++ [zerosLike (σ.getD ixp [])]).getD σ.length [] =
        zerosLike (σ.getD ixp []) := store_getD_append_self σ _
    have hpure := gzImpLoop_pure (zip3 (σ.getD ixp []) (σ.getD iyp []) (σ.getD izp []))
      σ.length prisms (σ ++ [zerosLike (σ.getD ixp [])]) hri
    rw [hacc] at hpure
    cases hL : PrismCore.fieldLoop PrismCore.kernGz
        (zip3 (σ.getD ixp []) (σ.getD iyp []) (σ.getD izp [])) prisms
        (zerosLike (σ.getD ixp [])) with
    | error e =>
      have h2 := hpure.1 e hL
      cases hI : PrismCore.gzImpLoop
          (zip3 (σ.getD ixp []) (σ.getD iyp []) (σ.getD izp [])) σ.length prisms
          (σ ++ [zerosLike (σ.getD ixp [])]) with
      | mk σ₂ e₂ =>
        rw [hI] at h2
        subst h2
        constructor
        · rfl
        · intro j hj
          have hf := gzImpLoop_frame
            (zip3 (σ.getD ixp []) (σ.getD iyp []) (σ.getD izp [])) σ.length prisms
            (σ ++ [zerosLike (σ.getD ixp [])]) j (Nat.ne_of_lt hj)
          rw [hI] at hf
          rw [store_getD_append_lt σ (zerosLike (σ.getD ixp [])) j hj] at hf
          exact hf
    | ok r =>
      obtain ⟨hok, hval⟩ := hpure.2 r hL
      cases hI : PrismCore.gzImpLoop
          (zip3 (σ.getD ixp []) (σ.getD iyp []) (σ.getD izp [])) σ.length prisms
          (σ ++ [zerosLike (σ.getD ixp [])]) with
      | mk σ₂ e₂ =>
        rw [hI] at hok hval
        subst hok
        have hlen₂ : σ.length < σ₂.length := by
          have := gzImpLoop_length
            (zip3 (σ.getD ixp []) (σ.getD iyp []) (σ.getD izp [])) σ.length prisms
            (σ ++ [zerosLike (σ.getD ixp [])])
          rw [hI] at this
          simp only [this]
          exact hri
        constructor
        · simp only [Except.map]
          rw [store_getD_set_self σ₂ σ.length _ hlen₂, hval]
        · intro j hj
          have hf := gzImpLoop_frame
            (zip3 (σ.getD ixp []) (σ.getD iyp []) (σ.getD izp [])) σ.length prisms
            (σ ++ [zerosLike (σ.getD ixp [])]) j (Nat.ne_of_lt hj)
          rw [hI] at hf
          rw [store_getD_set_ne σ₂ σ.length j _ (Nat.ne_of_gt hj)]
          rw [store_getD_append_lt σ (zerosLike (σ.getD ixp [])) j hj] at hf
          exact hf

/-- C3 witness: the store model evaluated with three one-point coordinate
arrays and the empty prism list. -/
theorem gzImp_pure_and_frame_witness :
    Except.map (fun r => ((PrismCore.gzImp [[(0 : ℝ)], [0], [0]] 0 1 2 []).1).getD r [])
        ((PrismCore.gzImp [[(0 : ℝ)], [0], [0]] 0 1 2 []).2) =
      PrismCore.gz ([[(0 : ℝ)], [0], [0]].getD 0 []) ([[(0 : ℝ)], [0], [0]].getD 1 [])
        ([[(0 : ℝ)], [0], [0]].getD 2 []) [] ∧
    ∀ j, j < ([[(0 : ℝ)], [0], [0]] : PrismCore.Store).length →
      ((PrismCore.gzImp [[(0 : ℝ)], [0], [0]] 0 1 2 []).1).getD j [] =
        ([[(0 : ℝ)], [0], [0]] : PrismCore.Store).getD j [] :=
  gzImp_pure_and_frame [[(0 : ℝ)], [0], [0]] 0 1 2 []

/-- C9 witness: at one observation point, a singleton prism list raises
AttributeError and the empty prism list returns the zero array. -/
theorem wrapper_gz_attribute_bug_witness :
    PrismMod.gz [(0 : ℝ)] [0] [0] [some PrismCore.demoPrism] = .error .attributeError ∧
    PrismMod.gz [(0 : ℝ)] [0] [0] [] = .ok (zerosLike [(0 : ℝ)]) :=
  ⟨(wrapper_gz_attribute_bug [(0 : ℝ)] [0] [0] [some PrismCore.demoPrism] (by decide)).1
      ⟨some PrismCore.demoPrism, List.mem_singleton.mpr rfl, by simp⟩,
    (wrapper_gz_attribute_bug [(0 : ℝ)] [0] [0] [] (by decide)).2 (by simp)⟩

/- Generic getD lemmas for set and map. -/
theorem getD_set_self {α : Type} (l : List α) (i : ℕ) (v d : α) (h : i < l.length) :
    (l.set i v).getD i d = v := by
  rw [List.getD_eq_getElem _ _ (by simpa using h), List.getElem_set]
  simp

theorem getD_set_ne {α : Type} (l : List α) (i j : ℕ) (v d : α) (h : i ≠ j) :
    (l.set i v).getD j d = l.getD j d := by
  rw [List.getD_eq_getElem?_getD, List.getD_eq_getElem?_getD, List.getElem?_set_ne h]

theorem getD_map_apply {α β : Type} (g : α → β) (l : List α) (i : ℕ) (d : α)
    (h : i < l.length) : (l.map g).getD i (g d) = g (l.getD i d) := by
  rw [List.getD_eq_getElem _ _ (by simpa using h), List.getD_eq_getElem _ _ h,
    List.getElem_map]

theorem getD_mem {α : Type} (l : List α) (i : ℕ) (d : α) (h : i < l.length) :
    l.getD i d ∈ l := by
  rw [List.getD_eq_getElem _ _ h]
  exact List.getElem_mem h

/- sow helper: the mesh scan returns none exactly when no cell contains
   the point. -/
theorem findCellAux_none_iff (p : ℚ × ℚ × ℚ) :
    ∀ (mesh : List Harvester.MeshCell) (k : ℕ),
      Harvester.findCellAux p mesh k = none ↔
        ∀ c ∈ mesh, Harvester.cellContains c p = false := by
  intro mesh
  induction mesh with
  | nil => intro k; simp [Harvester.findCellAux]
  | cons c rest ih =>
    intro k
    by_cases hc : Harvester.cellContains c p
    · simp [Harvester.findCellAux, hc]
    · simp [Harvester.findCellAux, hc, ih]

/- sow helper: an unresolvable spec makes the resolution pass fail with
   OutOfBoundsError. -/
theorem resolveSpecs_error_of_unresolvable (mesh : List Harvester.MeshCell) :
    ∀ (specs : List Harvester.SeedSpec),
      (∃ s ∈ specs, Harvester.findCell mesh s.point = none) →
      Harvester.resolveSpecs mesh specs = .error .outOfBounds := by
  intro specs
  induction specs with
  | nil => rintro ⟨s, hs, _⟩; cases hs
  | cons s rest ih =>
    rintro ⟨t, ht, hnone⟩
    rcases List.mem_cons.mp ht with rfl | ht'
    · simp [Harvester.resolveSpecs, hnone]
    · cases hs : Harvester.findCell mesh s.point with
      | none => simp [Harvester.resolveSpecs, hs]
      | some i => simp [Harvester.resolveSpecs, hs, ih ⟨t, ht', hnone⟩, Except.map]

/- sow helper: a successful resolution pass returns one index per spec,
   the index of the cell containing that spec's point. -/
theorem resolveSpecs_ok_spec (mesh : List Harvester.MeshCell) :
    ∀ (specs : List Harvester.SeedSpec) (idxs : List ℕ),
      Harvester.resolveSpecs mesh specs = .ok idxs →
      idxs.length = specs.length ∧
      ∀ k, k < specs.length →
        Harvester.findCell mesh ((specs.getD k ⟨(0, 0, 0), 0⟩).point) =
          some (idxs.getD k 0) := by
  intro specs
  induction specs with
  | nil =>
    intro idxs h
    obtain rfl : ([] : List ℕ) = idxs := by simpa [Harvester.resolveSpecs] using h
    exact ⟨rfl, fun k hk => absurd hk (by simp)⟩
  | cons s rest ih =>
    intro idxs h
    cases hs : Harvester.findCell mesh s.point with
    | none => rw [Harvester.resolveSpecs, hs] at h; exact absurd h (by simp)
    | some i =>
      rw [Harvester.resolveSpecs, hs] at h
      cases hr : Harvester.resolveSpecs mesh rest with
      | error e => rw [hr] at h; exact absurd h (by simp [Except.map])
      | ok tl =>
        rw [hr] at h
        obtain rfl : i :: tl = idxs := by simpa [Except.map] using h
        obtain ⟨hlen, hspec⟩ := ih tl hr
        refine ⟨by simp [hlen], ?_⟩
        intro k hk
        cases k with
        | zero => simpa using hs
        | succ m => simpa using hspec m (by simpa using hk)

/- sow helper: the k-th Seed built by mkSeeds. -/
theorem mkSeeds_getD :
    ∀ (specs : List Harvester.SeedSpec) (idxs : List ℕ) (k : ℕ),
      k < specs.length → k < idxs.length →
      (Harvester.mkSeeds specs idxs).getD k ⟨0, 0, []⟩ =
        ⟨idxs.getD k 0, (specs.getD k ⟨(0, 0, 0), 0⟩).density, [idxs.getD k 0]⟩ := by
  intro specs
  induction specs with
  | nil => intro idxs k h _; exact absurd h (by simp)
  | cons s rest ih =>
    intro idxs k h1 h2
    cases idxs with
    | nil => exact absurd h2 (by simp)
    | cons i tl =>
      cases k with
      | zero => rfl
      | succ m =>
        simpa [Harvester.mkSeeds] using ih tl m (by simpa using h1) (by simpa using h2)

theorem mkSeeds_length (specs : List Harvester.SeedSpec) (idxs : List ℕ) :
    (Harvester.mkSeeds specs idxs).length = min specs.length idxs.length := by
  simp [Harvester.mkSeeds]

/-- C7: sow validates its input: a seed spec whose point no mesh cell
contains fails with OutOfBoundsError; two specs resolving to the same
cell fail with DuplicateSeedError; otherwise sow returns the ordered Seed
list, one per spec, each Seed carrying the index of the cell containing
its point and the singleton chain of exactly its own cell. -/
theorem sow_validates (mesh : List Harvester.MeshCell) (specs : List Harvester.SeedSpec) :
    ((∃ s ∈ specs, ∀ c ∈ mesh, Harvester.cellContains c s.point = false) →
      Harvester.sow mesh specs = .error .outOfBounds) ∧
    (∀ idxs, Harvester.resolveSpecs mesh specs = .ok idxs →
      (∃ k l, k < l ∧ l < idxs.length ∧ idxs.getD k 0 = idxs.getD l 0) →
      Harvester.sow mesh specs = .error .duplicateSeed) ∧
    (∀ idxs, Harvester.resolveSpecs mesh specs = .ok idxs → idxs.Nodup →
      Harvester.sow mesh specs = .ok (Harvester.mkSeeds specs idxs) ∧
      (Harvester.mkSeeds specs idxs).length = specs.length ∧
      ∀ k, k < specs.length →
        (Harvester.mkSeeds specs idxs).getD k ⟨0, 0, []⟩ =
          ⟨idxs.getD k 0, (specs.getD k ⟨(0, 0, 0), 0⟩).density, [idxs.getD k 0]⟩ ∧
        Harvester.findCell mesh ((specs.getD k ⟨(0, 0, 0), 0⟩).point) =
          some (idxs.getD k 0)) := by
  refine ⟨?_, ?_, ?_⟩
  · rintro ⟨s, hs, hnone⟩
    have herr := resolveSpecs_error_of_unresolvable mesh specs
      ⟨s, hs, (findCellAux_none_iff s.point mesh 0).mpr hnone⟩
    simp [Harvester.sow, herr]
  · intro idxs hok ⟨k, l, hkl, hl, heq⟩
    have hnd : ¬idxs.Nodup := by
      intro hnd
      have hk : k < idxs.length := hkl.trans hl
      rw [List.getD_eq_getElem _ _ hk, List.getD_eq_getElem _ _ hl] at heq
      exact absurd (hnd.getElem_inj_iff.mp heq) (Nat.ne_of_lt hkl)
    simp [Harvester.sow, hok, hnd]
  · intro idxs hok hnd
    obtain ⟨hlen, hspec⟩ := resolveSpecs_ok_spec mesh specs idxs hok
    refine ⟨by simp [Harvester.sow, hok, hnd], by simp [mkSeeds_length, hlen], ?_⟩
    intro k hk
    exact ⟨mkSeeds_getD specs idxs k hk (by omega), hspec k hk⟩

/-- C7 witness: a two-cell mesh with two specs resolving to the two
distinct cells. -/
theorem sow_validates_witness :
    Harvester.sow Harvester.demoMesh Harvester.demoSpecs =
        .ok (Harvester.mkSeeds Harvester.demoSpecs [0, 1]) ∧
      (Harvester.mkSeeds Harvester.demoSpecs [0, 1]).length = Harvester.demoSpecs.length ∧
      ∀ k, k < Harvester.demoSpecs.length →
        (Harvester.mkSeeds Harvester.demoSpecs [0, 1]).getD k ⟨0, 0, []⟩ =
          ⟨[0, 1].getD k 0, (Harvester.demoSpecs.getD k ⟨(0, 0, 0), 0⟩).density,
            [[0, 1].getD k 0]⟩ ∧
        Harvester.findCell Harvester.demoMesh
            ((Harvester.demoSpecs.getD k ⟨(0, 0, 0), 0⟩).point) =
          some ([0, 1].getD k 0) :=
  (sow_validates Harvester.demoMesh Harvester.demoSpecs).2.2 [0, 1] rfl (by decide)

/- One engine iteration appends at most one entry to the goal trace. -/
theorem step_trace_le (cfg : Harvester.HarvestConfig) (st : Harvester.GrowthState) :
    (Harvester.step cfg st).1.trace.length ≤ st.trace.length + 1 := by
  unfold Harvester.step
  split
  · simp
  · split
    · simp
    · split <;> simp [Harvester.commit]

/-- C6: the growth engine terminates: for every configuration (any finite
mesh adjacency) and every finite maximum-iteration budget, harvestRun
reaches one of the terminal states CONVERGED, EXHAUSTED or STALLED, the
engine is a total function (no fatal error once iterating: it always
returns a usable state, whose Estimate is read from the chains, and
trace), and at most one growth step is committed per iteration, so the
trace grows by at most the iteration budget. -/
theorem harvest_terminates (cfg : Harvester.HarvestConfig) (fuel : ℕ)
    (st : Harvester.GrowthState) :
    ((Harvester.harvestRun cfg fuel st).2 = .converged ∨
      (Harvester.harvestRun cfg fuel st).2 = .exhausted ∨
      (Harvester.harvestRun cfg fuel st).2 = .stalled) ∧
    (Harvester.harvestRun cfg fuel st).1.trace.length ≤ st.trace.length + fuel := by
  induction fuel generalizing st with
  | zero => exact ⟨Or.inr (Or.inr rfl), by simp [Harvester.harvestRun]⟩
  | succ n ih =>
    have hstep := step_trace_le cfg st
    unfold Harvester.harvestRun
    cases hs : Harvester.step cfg st with
    | mk st' os =>
      rw [hs] at hstep
      cases os with
      | some s =>
        have hstep' : st'.trace.length ≤ st.trace.length + 1 := hstep
        refine ⟨?_, ?_⟩
        · cases s
          · exact Or.inl rfl
          · exact Or.inr (Or.inl rfl)
          · exact Or.inr (Or.inr rfl)
        · exact Nat.le_trans hstep' (by omega)
      | none =>
        have hstep' : st'.trace.length ≤ st.trace.length + 1 := hstep
        obtain ⟨h1, h2⟩ := ih st'
        refine ⟨h1, ?_⟩
        have hb : (Harvester.harvestRun cfg n st').1.trace.length ≤
            st.trace.length + (n + 1) := by omega
        exact hb

/- One engine iteration preserves a well-formed, non-increasing goal
   trace, provided the jury accepts only goal-improving candidates. -/
theorem step_traceOK (cfg : Harvester.HarvestConfig) (st : Harvester.GrowthState)
    (hacc : ∀ c s, cfg.accept c s = true → c.goal ≤ s.goal)
    (h : Harvester.TraceOK st) : Harvester.TraceOK (Harvester.step cfg st).1 := by
  unfold Harvester.step
  split
  · exact h
  · split
    · exact h
    · rename_i c hf
      have hc := @List.find?_some _ (fun x => cfg.accept x st) c _ hf
      have hg : c.goal ≤ st.goal := hacc c st hc
      obtain ⟨hch, hlast⟩ := h
      have hcommit : Harvester.TraceOK (Harvester.commit cfg st c) := by
        constructor
        · show List.Chain' (fun a b => b ≤ a) (st.trace ++ [c.goal])
          rw [List.chain'_append]
          refine ⟨hch, List.chain'_singleton _, ?_⟩
          intro x hx y hy
          have hy' : c.goal = y := by simpa using hy
          rw [← hy']
          exact hg.trans (hlast x hx)
        · show ∀ g, (st.trace ++ [c.goal]).getLast? = some g →
            (Harvester.commit cfg st c).goal ≤ g
          intro g hgl
          rw [List.getLast?_append] at hgl
          have hg' : c.goal = g := by simpa using hgl
          rw [← hg']
          exact le_refl _
      split <;> exact hcommit

/-- C4: for every valid configuration — one whose composed jury accepts a
candidate only when its resulting goal does not exceed the current goal,
as the spec's threshold jury does — and every initial state with a
well-formed trace, the goal-function trace produced by the harvest run is
non-increasing across consecutive entries. -/
theorem harvest_trace_non_increasing (cfg : Harvester.HarvestConfig) (fuel : ℕ)
    (st : Harvester.GrowthState)
    (hacc : ∀ c s, cfg.accept c s = true → c.goal ≤ s.goal)
    (h : Harvester.TraceOK st) :
    List.Chain' (fun a b => b ≤ a) (Harvester.harvestRun cfg fuel st).1.trace := by
  induction fuel generalizing st with
  | zero => simpa [Harvester.harvestRun] using h.1
  | succ n ih =>
    have hst := step_traceOK cfg st hacc h
    unfold Harvester.harvestRun
    cases hs : Harvester.step cfg st with
    | mk st' os =>
      rw [hs] at hst
      cases os with
      | some s => exact hst.1
      | none => exact ih st' hst

/-- C4 witness: a run under the spec's threshold jury from a concrete
state whose trace is the singleton [10]. -/
theorem harvest_trace_non_increasing_witness :
    List.Chain' (fun a b => b ≤ a)
      (Harvester.harvestRun Harvester.demoCfgJury 3 Harvester.demoState).1.trace :=
  harvest_trace_non_increasing Harvester.demoCfgJury 3 Harvester.demoState
    (fun c s h => by
      simp only [Harvester.demoCfgJury, Harvester.thresholdJuryAccept, Bool.and_eq_true,
        decide_eq_true_eq] at h
      linarith [h.1])
    (by
      constructor
      · simp [Harvester.demoState]
      · intro g hg
        have hg' : (10 : ℚ) = g := by simpa [Harvester.demoState] using hg
        rw [← hg']
        exact le_refl _)

/- getD of a mapped filter. -/
theorem getD_map_filter {α : Type} (pr : α → Bool) (l : List (List α)) (i : ℕ)
    (h : i < l.length) :
    (l.map (fun f => f.filter pr)).getD i [] = (l.getD i []).filter pr := by
  rw [List.getD_eq_getElem _ _ (by simpa using h), List.getD_eq_getElem _ _ h,
    List.getElem_map]

/- Every candidate produced by the engine names a live seed and a cell of
   that seed's frontier. -/
theorem candidatesOf_mem (cfg : Harvester.HarvestConfig) (st : Harvester.GrowthState)
    (c : Harvester.Candidate) (h : c ∈ Harvester.candidatesOf cfg st) :
    c.seed < st.chains.length ∧ c.cell ∈ st.frontiers.getD c.seed [] := by
  unfold Harvester.candidatesOf at h
  rw [List.mem_flatMap] at h
  obtain ⟨i, hi, hc⟩ := h
  rw [List.mem_map] at hc
  obtain ⟨cell, hcell, rfl⟩ := hc
  rw [List.mem_range] at hi
  exact ⟨hi, hcell⟩

/- Committing a frontier cell preserves the chain invariant, never
   removes a cell from a chain, and grows only the committing chain. -/
theorem commit_inv (cfg : Harvester.HarvestConfig) (st : Harvester.GrowthState)
    (c : Harvester.Candidate) (h : Harvester.Inv st)
    (hseed : c.seed < st.chains.length)
    (hcell : c.cell ∈ st.frontiers.getD c.seed []) :
    Harvester.Inv (Harvester.commit cfg st c) ∧
    (∀ i x, x ∈ st.chains.getD i [] → x ∈ (Harvester.commit cfg st c).chains.getD i []) ∧
    (∀ i, (st.chains.getD i []).length ≤
      ((Harvester.commit cfg st c).chains.getD i []).length) := by
  obtain ⟨hpw, hne, hfr, hlen⟩ := h
  have hflen : c.seed < st.frontiers.length := by rw [hlen]; exact hseed
  have hnotin : ∀ ch ∈ st.chains, c.cell ∉ ch :=
    fun ch hch => hfr _ (getD_mem st.frontiers c.seed [] hflen) c.cell hcell ch hch
  have hpw' := List.pairwise_iff_getElem.mp hpw
  refine ⟨⟨?_, ?_, ?_, ?_⟩, ?_, ?_⟩
  · -- pairwise disjointness of the updated chains
    show List.Pairwise _ (st.chains.set c.seed (st.chains.getD c.seed [] ++ [c.cell]))
    rw [List.pairwise_iff_getElem]
    intro i j hi hj hij
    rw [List.length_set] at hi hj
    rw [List.getElem_set, List.getElem_set]
    by_cases hci : c.seed = i
    · have hcj : ¬c.seed = j := by omega
      rw [if_pos hci, if_neg hcj]
      intro x hx
      rcases List.mem_append.mp hx with hx1 | hx2
      · have hbase := hpw' i j hi hj hij
        rw [← List.getD_eq_getElem st.chains [] hi, ← hci] at hbase
        exact hbase x hx1
      · have hx2' : x = c.cell := by simpa using hx2
        rw [hx2']
        exact hnotin _ (List.getElem_mem hj)
    · by_cases hcj : c.seed = j
      · rw [if_neg hci, if_pos hcj]
        intro x hx
        intro hmem
        rcases List.mem_append.mp hmem with hm1 | hm2
        · have hbase := hpw' i j hi hj hij
          rw [← List.getD_eq_getElem st.chains [] hj, ← hcj] at hbase
          exact hbase x hx hm1
        · have hm2' : x = c.cell := by simpa using hm2
          rw [hm2'] at hx
          exact hnotin _ (List.getElem_mem hi) hx
      · rw [if_neg hci, if_neg hcj]
        exact hpw' i j hi hj hij
  · -- chains stay nonempty
    show ∀ ch ∈ st.chains.set c.seed (st.chains.getD c.seed [] ++ [c.cell]), ch ≠ []
    intro ch hch
    rcases List.mem_or_eq_of_mem_set hch with hch' | rfl
    · exact hne ch hch'
    · simp
  · -- frontier cells stay outside every chain
    intro f hf x hx ch hch
    have hkey : ∀ y, (∃ f₀ ∈ st.frontiers, y ∈ f₀) → y ≠ c.cell →
        ∀ ch' ∈ st.chains.set c.seed (st.chains.getD c.seed [] ++ [c.cell]), y ∉ ch' := by
      rintro y ⟨f₀, hf₀, hyf⟩ hyne ch' hch'
      rcases List.mem_or_eq_of_mem_set hch' with hch'' | rfl
      · exact hfr f₀ hf₀ y hyf ch' hch''
      · intro hmem
        rcases List.mem_append.mp hmem with hm1 | hm2
        · exact hfr f₀ hf₀ y hyf _ (getD_mem st.chains c.seed [] hseed) hm1
        · exact hyne (by simpa using hm2)
    rcases List.mem_or_eq_of_mem_set hf with hf' | rfl
    · obtain ⟨f₀, hf₀, rfl⟩ := List.mem_map.mp hf'
      obtain ⟨hxf₀, hdec⟩ := List.mem_filter.mp hx
      exact hkey x ⟨f₀, hf₀, hxf₀⟩ (of_decide_eq_true hdec) ch hch
    · rcases List.mem_append.mp hx with hx1 | hx2
      · rw [getD_map_filter _ _ _ hflen] at hx1
        obtain ⟨hxf, hdec⟩ := List.mem_filter.mp hx1
        exact hkey x ⟨st.frontiers.getD c.seed [], getD_mem st.frontiers c.seed [] hflen, hxf⟩
          (of_decide_eq_true hdec) ch hch
      · obtain ⟨_, hdec⟩ := List.mem_filter.mp hx2
        obtain ⟨hdec1, _⟩ := Bool.and_eq_true_iff.mp hdec
        exact of_decide_eq_true hdec1 ch hch
  · -- frontiers stay aligned with chains
    simp [Harvester.commit, hlen]
  · -- no cell is ever removed from a chain
    intro i x hx
    show x ∈ (st.chains.set c.seed (st.chains.getD c.seed [] ++ [c.cell])).getD i []
    by_cases hci : c.seed = i
    · rw [← hci, getD_set_self _ _ _ _ hseed]
      exact List.mem_append.mpr (Or.inl (by rw [hci]; exact hx))
    · rw [getD_set_ne _ _ _ _ _ hci]
      exact hx
  · -- chain sizes never shrink
    intro i
    show (st.chains.getD i []).length ≤
      ((st.chains.set c.seed (st.chains.getD c.seed [] ++ [c.cell])).getD i []).length
    by_cases hci : c.seed = i
    · rw [← hci, getD_set_self _ _ _ _ hseed, List.length_append]
      rw [hci]
      omega
    · rw [getD_set_ne _ _ _ _ _ hci]

/- One engine iteration preserves the chain invariant and only grows
   chains. -/
theorem step_inv (cfg : Harvester.HarvestConfig) (st : Harvester.GrowthState)
    (h : Harvester.Inv st) :
    Harvester.Inv (Harvester.step cfg st).1 ∧
    (∀ i x, x ∈ st.chains.getD i [] → x ∈ (Harvester.step cfg st).1.chains.getD i []) ∧
    (∀ i, (st.chains.getD i []).length ≤
      ((Harvester.step cfg st).1.chains.getD i []).length) := by
  unfold Harvester.step
  split
  · exact ⟨h, fun i x hx => hx, fun i => le_refl _⟩
  · split
    · exact ⟨h, fun i x hx => hx, fun i => le_refl _⟩
    · rename_i c hf
      have hmem : c ∈ Harvester.candidatesOf cfg st :=
        (List.Perm.mem_iff (List.perm_insertionSort Harvester.rankLE _)).mp
          (List.mem_of_find?_eq_some hf)
      obtain ⟨hseed, hcell⟩ := candidatesOf_mem cfg st c hmem
      have hc := commit_inv cfg st c h hseed hcell
      split <;> exact hc

/- Running the engine preserves the invariant and chain membership. -/
theorem iterGrow_inv (cfg : Harvester.HarvestConfig) :
    ∀ (k : ℕ) (st : Harvester.GrowthState), Harvester.Inv st →
      Harvester.Inv (Harvester.iterGrow cfg k st) ∧
      (∀ i x, x ∈ st.chains.getD i [] →
        x ∈ (Harvester.iterGrow cfg k st).chains.getD i []) := by
  intro k
  induction k with
  | zero => intro st h; exact ⟨h, fun i x hx => hx⟩
  | succ n ih =>
    intro st h
    obtain ⟨h1, h2, _⟩ := step_inv cfg st h
    unfold Harvester.iterGrow
    cases hs : Harvester.step cfg st with
    | mk st' os =>
      rw [hs] at h1 h2
      cases os with
      | some s => exact ⟨h1, h2⟩
      | none =>
        obtain ⟨g1, g2⟩ := ih st' h1
        exact ⟨g1, fun i x hx => g2 i x (h2 i x hx)⟩

/- Chain sizes are non-decreasing from one iteration to the next. -/
theorem iterGrow_succ_mono (cfg : Harvester.HarvestConfig) :
    ∀ (k : ℕ) (st : Harvester.GrowthState), Harvester.Inv st →
      ∀ i, ((Harvester.iterGrow cfg k st).chains.getD i []).length ≤
        ((Harvester.iterGrow cfg (k + 1) st).chains.getD i []).length := by
  intro k
  induction k with
  | zero =>
    intro st h i
    obtain ⟨_, _, h3⟩ := step_inv cfg st h
    show (st.chains.getD i []).length ≤
      ((Harvester.iterGrow cfg 1 st).chains.getD i []).length
    unfold Harvester.iterGrow
    cases hs : Harvester.step cfg st with
    | mk st' os =>
      rw [hs] at h3
      cases os with
      | some s => exact h3 i
      | none => exact h3 i
  | succ n ih =>
    intro st h i
    unfold Harvester.iterGrow
    cases hs : Harvester.step cfg st with
    | mk st' os =>
      cases os with
      | some s => exact le_refl _
      | none =>
        have h1 := (step_inv cfg st h).1
        rw [hs] at h1
        exact ih st' h1 i

/-- C5: chain growth is monotone and disjoint: starting from any state
satisfying the chain invariant (as the sown state does — pairwise
disjoint chains, each chain nonempty so it contains at least its seed
cell, frontier cells outside every chain), after any number of engine
iterations the chains are still pairwise disjoint, no cell — in
particular no seed cell — ever leaves its chain, and every chain's size
is non-decreasing from one iteration to the next. -/
theorem chains_disjoint_and_monotone (cfg : Harvester.HarvestConfig)
    (st : Harvester.GrowthState) (h : Harvester.Inv st) (k : ℕ) :
    Harvester.Inv (Harvester.iterGrow cfg k st) ∧
    (∀ i x, x ∈ st.chains.getD i [] →
      x ∈ (Harvester.iterGrow cfg k st).chains.getD i []) ∧
    (∀ i, ((Harvester.iterGrow cfg k st).chains.getD i []).length ≤
      ((Harvester.iterGrow cfg (k + 1) st).chains.getD i []).length) :=
  ⟨(iterGrow_inv cfg k st h).1, (iterGrow_inv cfg k st h).2,
    iterGrow_succ_mono cfg k st h⟩

/-- C5 witness: two seeds with singleton chains, run for two iterations
of a concrete configuration. -/
theorem chains_disjoint_and_monotone_witness :
    Harvester.Inv (Harvester.iterGrow Harvester.demoCfg 2 Harvester.demoState) ∧
    (∀ i x, x ∈ Harvester.demoState.chains.getD i [] →
      x ∈ (Harvester.iterGrow Harvester.demoCfg 2 Harvester.demoState).chains.getD i []) ∧
    (∀ i, ((Harvester.iterGrow Harvester.demoCfg 2 Harvester.demoState).chains.getD i []).length ≤
      ((Harvester.iterGrow Harvester.demoCfg 3 Harvester.demoState).chains.getD i []).length) :=
  chains_disjoint_and_monotone Harvester.demoCfg Harvester.demoState
    (by refine ⟨?_, ?_, ?_, ?_⟩ <;> decide) 2

end Fatiando
